import Mathlib

/-!
Verification development for the httpie-rust command-line HTTP client
(`src/main.rs`).  The program's pure logic — key=value splitting, URL
validation, request-body construction, content-type dispatch and the
response-rendering pipeline — is embedded shallowly below, and the
behavioural properties of the specification are proved about the
embedding.

External library calls (the url, http, mime and syntect crates) are not
part of this repository; where a property depends on them, the relevant
function is modelled explicitly, with a doc comment naming the source of
the model.
-/

/-- A parsed key=value body field, mirroring `struct KvPair` in `main.rs`. -/
structure KvPair where
  key : String
  value : String
deriving DecidableEq

/-- Splitting a character list on a separator, keeping empty segments:
the semantics of Rust's `str::split` with a one-character separator as
used by `KvPair::from_str` (separator `'='`).  `splitOnChar sep cs`
always yields at least one segment, exactly as Rust's `split` does. -/
def splitOnChar (sep : Char) : List Char → List (List Char)
  | [] => [[]]
  | c :: cs =>
    if c == sep then [] :: splitOnChar sep cs
    else
      match splitOnChar sep cs with
      | seg :: rest => (c :: seg) :: rest
      | [] => [[c]]

/-- `KvPair::from_str`: split the input on `'='` and take the first two
segments from the iterator; the first `next()` always succeeds (Rust's
`split` yields at least one segment), the second fails exactly when the
split produced a single segment. -/
def KvPair.from_str (s : String) : Option KvPair :=
  match splitOnChar '=' s.data with
  | k :: v :: _ => some ⟨String.mk k, String.mk v⟩
  | _ => none

/-- `parse_kv_pair`: delegates to `KvPair::from_str` (`s.parse()` in the
source). -/
def parse_kv_pair (s : String) : Option KvPair :=
  KvPair.from_str s

theorem splitOnChar_ne_nil (sep : Char) (cs : List Char) :
    splitOnChar sep cs ≠ [] := by
  induction cs with
  | nil => simp [splitOnChar]
  | cons c cs ih =>
    by_cases h : c == sep
    · simp [splitOnChar, h]
    · simp only [splitOnChar, h, if_neg]
      cases hs : splitOnChar sep cs with
      | nil => exact absurd hs ih
      | cons seg rest => simp

theorem splitOnChar_eq (sep : Char) (cs : List Char) :
    splitOnChar sep cs =
      cs.takeWhile (fun c => c != sep) ::
        (if sep ∈ cs then splitOnChar sep ((cs.dropWhile (fun c => c != sep)).tail)
         else []) := by
  induction cs with
  | nil => simp [splitOnChar]
  | cons c cs ih =>
    by_cases h : c = sep
    · subst h
      simp [splitOnChar, List.takeWhile_cons, List.dropWhile_cons]
    · have hb : (c == sep) = false := by simp [h]
      have hne : (c != sep) = true := by simp [h]
      simp only [splitOnChar, hb, Bool.false_eq_true, if_false]
      rw [ih]
      have hmem : (sep ∈ c :: cs) ↔ (sep ∈ cs) := by
        constructor
        · intro hm
          rcases List.mem_cons.mp hm with h1 | h1
          · exact absurd h1.symm h
          · exact h1
        · exact fun hm => List.mem_cons_of_mem _ hm
      by_cases hm : sep ∈ cs
      · simp [hm, hmem, List.takeWhile_cons, List.dropWhile_cons, hne]
      · simp [hm, hmem, List.takeWhile_cons, List.dropWhile_cons, hne]

/-- Characterisation of `KvPair::from_str`: it fails exactly when the
input has no `'='`, and otherwise returns the segment before the first
`'='` as key and the segment between the first and second `'='` (or the
remainder when there is no second `'='`) as value. -/
theorem KvPair.from_str_eq (s : String) :
    KvPair.from_str s =
      (if ('=' ∈ s.data)
       then some ⟨String.mk (s.data.takeWhile (fun c => c != '=')),
                  String.mk (((s.data.dropWhile (fun c => c != '=')).tail).takeWhile
                    (fun c => c != '='))⟩
       else none) := by
  unfold KvPair.from_str
  rw [splitOnChar_eq]
  by_cases hm : '=' ∈ s.data
  · rw [if_pos hm, if_pos hm,
      splitOnChar_eq '=' ((s.data.dropWhile (fun c => c != '=')).tail)]
  · rw [if_neg hm, if_neg hm]

theorem takeWhile_append_sep {α : Type} (p : α → Bool) (xs : List α) (y : α)
    (r : List α) (hx : ∀ x ∈ xs, p x = true) (hy : p y = false) :
    (xs ++ y :: r).takeWhile p = xs := by
  induction xs with
  | nil => simp [List.takeWhile_cons, hy]
  | cons a as ih =>
    have ha : p a = true := hx a (by simp)
    simp only [List.cons_append, List.takeWhile_cons, ha, if_true]
    rw [ih (fun x hxm => hx x (by simp [hxm]))]

theorem dropWhile_append_sep {α : Type} (p : α → Bool) (xs : List α) (y : α)
    (r : List α) (hx : ∀ x ∈ xs, p x = true) (hy : p y = false) :
    (xs ++ y :: r).dropWhile p = y :: r := by
  induction xs with
  | nil => simp [List.dropWhile_cons, hy]
  | cons a as ih =>
    have ha : p a = true := hx a (by simp)
    simp only [List.cons_append, List.dropWhile_cons, ha, if_true]
    exact ih (fun x hxm => hx x (by simp [hxm]))

/-- C1: `parse_kv_pair s` fails if and only if `s` contains no `'='`; when
`s` contains at least one `'='`, it succeeds and returns the segment
before the first `'='` as key and the segment between the first and
second `'='` (the whole remainder when there is no second `'='`) as
value, which may be empty. -/
theorem parse_kv_pair_fail_iff_no_eq (s : String) :
    (parse_kv_pair s = none ↔ ¬ ('=' ∈ s.data)) ∧
    (('=' ∈ s.data) →
      parse_kv_pair s =
        some ⟨String.mk (s.data.takeWhile (fun c => c != '=')),
              String.mk (((s.data.dropWhile (fun c => c != '=')).tail).takeWhile
                (fun c => c != '='))⟩) := by
  unfold parse_kv_pair
  rw [KvPair.from_str_eq]
  by_cases hm : '=' ∈ s.data <;> simp [hm]

theorem parse_kv_pair_fail_iff_no_eq_w :
    ('=' ∈ "a=1".data) ∧ parse_kv_pair "a=1" = some ⟨"a", "1"⟩ :=
  ⟨by decide, ((parse_kv_pair_fail_iff_no_eq "a=1").2 (by decide)).trans (by decide)⟩

/-- C7: on an input made of a first segment, `'='`, a second segment,
`'='`, and an arbitrary remainder, `parse_kv_pair` keeps only the first
two segments: the result is independent of everything after the second
`'='`. -/
theorem parse_kv_pair_two_eq (xs ys zs : List Char)
    (hx : ¬ '=' ∈ xs) (hy : ¬ '=' ∈ ys) :
    parse_kv_pair (String.mk (xs ++ '=' :: (ys ++ '=' :: zs))) =
      some ⟨String.mk xs, String.mk ys⟩ := by
  have hxs : ∀ x ∈ xs, (x != '=') = true := by
    intro x hxm
    simp only [bne_iff_ne, ne_eq]
    intro hcontra
    exact hx (hcontra ▸ hxm)
  have hys : ∀ x ∈ ys, (x != '=') = true := by
    intro x hxm
    simp only [bne_iff_ne, ne_eq]
    intro hcontra
    exact hy (hcontra ▸ hxm)
  have hsep : (('=' : Char) != '=') = false := by decide
  have hdata : (String.mk (xs ++ '=' :: (ys ++ '=' :: zs))).data
      = xs ++ '=' :: (ys ++ '=' :: zs) := rfl
  unfold parse_kv_pair
  rw [KvPair.from_str_eq, hdata]
  have hmem : '=' ∈ xs ++ '=' :: (ys ++ '=' :: zs) :=
    List.mem_append.mpr (Or.inr (List.mem_cons_self _ _))
  rw [if_pos hmem, takeWhile_append_sep _ _ _ _ hxs hsep,
    dropWhile_append_sep _ _ _ _ hxs hsep]
  simp only [List.tail_cons]
  rw [takeWhile_append_sep _ _ _ _ hys hsep]

theorem parse_kv_pair_two_eq_w :
    parse_kv_pair "a=b=c" = some ⟨"a", "b"⟩ := by
  have h := parse_kv_pair_two_eq "a".data "b".data "c".data (by decide) (by decide)
  have e1 : String.mk ("a".data ++ '=' :: ("b".data ++ '=' :: "c".data)) = "a=b=c" := by
    decide
  have e2 : String.mk "a".data = "a" := by decide
  have e3 : String.mk "b".data = "b" := by decide
  rw [e1, e2, e3] at h
  exact h

/-- C2 counterexample: on the input beginning with `'='`, `parse_kv_pair`
succeeds and the returned key is the empty string, refuting the
invariant that the key of a successfully parsed `KvPair` is non-empty. -/
theorem parse_kv_pair_empty_key_cex :
    parse_kv_pair "=1" = some ⟨"", "1"⟩ := by decide

/-- C2 amended: on success the key is the segment before the first `'='`,
so it is empty exactly when the input string begins with `'='`; for
every successful input not beginning with `'='` the key is non-empty. -/
theorem parse_kv_pair_key_empty_iff (s : String) (p : KvPair)
    (h : parse_kv_pair s = some p) :
    (p.key = "" ↔ s.data.head? = some '=') := by
  unfold parse_kv_pair at h
  rw [KvPair.from_str_eq] at h
  by_cases hm : '=' ∈ s.data
  · rw [if_pos hm] at h
    have hp := Option.some.inj h
    subst hp
    cases hd : s.data with
    | nil => rw [hd] at hm; exact absurd hm (List.not_mem_nil _)
    | cons c t =>
      by_cases hc : c = '='
      · subst hc
        have : (('=' : Char) != '=') = false := by decide
        simp [List.takeWhile_cons, this]
      · have hb : (c != '=') = true := by simp [hc]
        simp only [List.takeWhile_cons, hb, if_true, List.head?_cons]
        constructor
        · intro hcontra
          exact absurd (congrArg String.data hcontra) (by simp)
        · intro hcontra
          exact absurd (Option.some.inj hcontra) hc
  · rw [if_neg hm] at h
    exact absurd h (by simp)

theorem parse_kv_pair_key_empty_iff_w :
    ((⟨"", "1"⟩ : KvPair).key = "" ↔ "=1".data.head? = some '=') :=
  parse_kv_pair_key_empty_iff "=1" ⟨"", "1"⟩ (by decide)

/-- Modelled from the spec: `Url::parse` of the external `url` crate is
not part of this repository; the spec characterises it as accepting
exactly the strings that parse as an absolute URL per standard URL
syntax with both a scheme and an authority.  `urlParseOk` realises that
characterisation: a non-empty scheme beginning with a letter and made of
letters, digits, `+`, `-` or `.`, followed by `://` and a non-empty
remainder holding the authority. -/
def urlParseOk (s : String) : Bool :=
  let cs := s.data
  let scheme := cs.takeWhile (fun c => c != ':')
  let rest := cs.dropWhile (fun c => c != ':')
  (match scheme with
   | [] => false
   | c :: _ => c.isAlpha)
  && scheme.all (fun c => c.isAlphanum || c == '+' || c == '-' || c == '.')
  && rest.take 3 == [':', '/', '/']
  && !(rest.drop 3).isEmpty

/-- Modelled from the spec: the result of `Url::parse` is discarded by
`parse_url`, so only success or failure is represented. -/
def Url.parse (s : String) : Option Unit :=
  if urlParseOk s then some () else none

/-- `parse_url`: runs `Url::parse` on the input for validation only and
returns the original input string on success (`Ok(url.into())`). -/
def parse_url (url : String) : Option String :=
  match Url.parse url with
  | some _ => some url
  | none => none

/-- C3: `parse_url s` fails exactly when `s` is not an absolute URL with
scheme and authority (as modelled by `urlParseOk`), and on success it
returns the input string itself, unchanged. -/
theorem parse_url_spec (s : String) :
    (parse_url s = none ↔ urlParseOk s = false) ∧
    (∀ t, parse_url s = some t → t = s) := by
  unfold parse_url Url.parse
  by_cases h : urlParseOk s
  · rw [if_pos h]
    refine ⟨by simp [h], ?_⟩
    intro t ht
    exact (Option.some.inj ht).symm
  · rw [if_neg h]
    refine ⟨by simp [Bool.eq_false_iff.mpr h], ?_⟩
    intro t ht
    exact absurd ht (by simp)

theorem parse_url_spec_w :
    parse_url "abc" = none ∧ "http://abc.xyz" = "http://abc.xyz" :=
  ⟨(parse_url_spec "abc").1.mpr (by decide),
   (parse_url_spec "http://abc.xyz").2 "http://abc.xyz" (by decide)⟩

/-- Lookup in an association list of strings, modelling
`HashMap::get`-style access to the transmitted body mapping. -/
def lookupKV : List (String × String) → String → Option String
  | [], _ => none
  | (k, v) :: rest, key => if k == key then some v else lookupKV rest key

/-- Insertion into an association list with overwrite, modelling
`HashMap::insert`: an existing binding of the key is replaced, otherwise
the new binding is appended. -/
def insertKV : List (String × String) → String → String → List (String × String)
  | [], k, v => [(k, v)]
  | (k0, v0) :: rest, k, v =>
      if k0 == k then (k, v) :: rest else (k0, v0) :: insertKV rest k v

/-- The body mapping built by `HttpRequest::post`/`put`/`patch`: starting
from an empty map, each `KvPair` of the argument list is inserted in
order (`body.insert(&arg.key, &arg.value)`). -/
def buildBody (pairs : List KvPair) : List (String × String) :=
  pairs.foldl (fun m p => insertKV m p.key p.value) []

/-- The four HTTP verbs the client dispatches on. -/
inductive Method
  | get
  | post
  | put
  | patch
deriving DecidableEq

/-- The observable content of the one outbound request: verb, target
URL, the client's default headers, and the body mapping (absent for
GET). -/
structure Request where
  method : Method
  url : String
  headers : List (String × String)
  body : Option (List (String × String))
deriving DecidableEq

/-- Arguments of the `get` subcommand (`struct GET`). -/
structure GET where
  url : String
deriving DecidableEq

/-- Arguments of the `post` subcommand (`struct POST`). -/
structure POST where
  url : String
  body : List KvPair
deriving DecidableEq

/-- Arguments of the `put` subcommand (`struct PUT`). -/
structure PUT where
  url : String
  body : List KvPair
deriving DecidableEq

/-- Arguments of the `patch` subcommand (`struct PATCH`). -/
structure PATCH where
  url : String
  body : List KvPair
deriving DecidableEq

/-- `HttpRequest::get`: issues a GET to the URL with no body. -/
def HttpRequest.get (client : List (String × String)) (args : GET) : Request :=
  ⟨Method.get, args.url, client, none⟩

/-- `HttpRequest::post`: builds the body mapping from the `KvPair` list
by repeated `HashMap::insert` and sends it as JSON. -/
def HttpRequest.post (client : List (String × String)) (args : POST) : Request :=
  ⟨Method.post, args.url, client, some (buildBody args.body)⟩

/-- `HttpRequest::put`: same body construction as `post`, sent with PUT. -/
def HttpRequest.put (client : List (String × String)) (args : PUT) : Request :=
  ⟨Method.put, args.url, client, some (buildBody args.body)⟩

/-- `HttpRequest::patch`: same body construction as `post`, sent with
PATCH. -/
def HttpRequest.patch (client : List (String × String)) (args : PATCH) : Request :=
  ⟨Method.patch, args.url, client, some (buildBody args.body)⟩

/-- The value of the last `KvPair` in the list whose key is `k`, if any:
the reference description of last-write-wins body construction. -/
def lastValue (pairs : List KvPair) (k : String) : Option String :=
  match pairs with
  | [] => none
  | p :: rest =>
    match lastValue rest k with
    | some v => some v
    | none => if p.key == k then some p.value else none

theorem lookupKV_insertKV_same (m : List (String × String)) (k v : String) :
    lookupKV (insertKV m k v) k = some v := by
  induction m with
  | nil => simp [insertKV, lookupKV]
  | cons p rest ih =>
    obtain ⟨k0, v0⟩ := p
    by_cases h : (k0 == k) = true
    · simp [insertKV, h, lookupKV]
    · simp [insertKV, h, lookupKV, ih]

theorem lookupKV_insertKV_other (m : List (String × String)) (k v q : String)
    (hq : (k == q) = false) :
    lookupKV (insertKV m k v) q = lookupKV m q := by
  induction m with
  | nil => simp [insertKV, lookupKV, hq]
  | cons p rest ih =>
    obtain ⟨k0, v0⟩ := p
    by_cases h : (k0 == k) = true
    · have hk0 : k0 = k := by simpa using h
      subst hk0
      simp [insertKV, h, lookupKV, hq]
    · simp [insertKV, h, lookupKV, ih]

theorem insertKV_keys (m : List (String × String)) (k v : String) :
    (insertKV m k v).map Prod.fst =
      if k ∈ m.map Prod.fst then m.map Prod.fst
      else m.map Prod.fst ++ [k] := by
  induction m with
  | nil => simp [insertKV]
  | cons p rest ih =>
    obtain ⟨k0, v0⟩ := p
    by_cases h : k0 = k
    · subst h
      have hb : (k0 == k0) = true := by simp
      simp [insertKV, hb]
    · have hb : (k0 == k) = false := by simp [h]
      have hne : ¬ (k = k0) := fun hc => h hc.symm
      simp only [insertKV, hb, Bool.false_eq_true, if_false, List.map_cons, ih,
        List.mem_cons, hne, false_or]
      by_cases hm : k ∈ rest.map Prod.fst
      · simp [hm]
      · simp [hm]

theorem insertKV_keys_nodup (m : List (String × String)) (k v : String)
    (h : (m.map Prod.fst).Nodup) :
    ((insertKV m k v).map Prod.fst).Nodup := by
  rw [insertKV_keys]
  by_cases hm : k ∈ m.map Prod.fst
  · simpa [hm] using h
  · simp [hm, List.nodup_append, h]

theorem lastValue_cons (p : KvPair) (rest : List KvPair) (k : String) :
    lastValue (p :: rest) k =
      (match lastValue rest k with
       | some v => some v
       | none => if p.key == k then some p.value else none) := rfl

theorem foldl_insert_lookup (ps : List KvPair) (m : List (String × String))
    (k : String) :
    lookupKV (ps.foldl (fun acc p => insertKV acc p.key p.value) m) k =
      (match lastValue ps k with
       | some v => some v
       | none => lookupKV m k) := by
  induction ps generalizing m with
  | nil => simp [lastValue]
  | cons p rest ih =>
    rw [List.foldl_cons, ih (insertKV m p.key p.value), lastValue_cons]
    cases hr : lastValue rest k with
    | some v => simp [hr]
    | none =>
      by_cases hk : (p.key == k) = true
      · have hkeq : p.key = k := by simpa using hk
        simp only [hr, hk, if_true]
        rw [← hkeq, lookupKV_insertKV_same]
      · have hkf : (p.key == k) = false := by simpa using hk
        simp only [hr, hkf, Bool.false_eq_true, if_false]
        rw [lookupKV_insertKV_other _ _ _ _ hkf]

theorem foldl_insert_nodup (ps : List KvPair) (m : List (String × String))
    (h : (m.map Prod.fst).Nodup) :
    ((ps.foldl (fun acc p => insertKV acc p.key p.value) m).map Prod.fst).Nodup := by
  induction ps generalizing m with
  | nil => simpa
  | cons p rest ih => exact ih _ (insertKV_keys_nodup _ _ _ h)

/-- C4: for POST, PUT and PATCH the transmitted body is a mapping whose
keys are pairwise distinct and in which each key is bound to the value
of the last `KvPair` with that key (later duplicates overwrite earlier
ones); a GET request carries no body. -/
theorem request_body_mapping (url : String) (pairs : List KvPair)
    (client : List (String × String)) :
    ((buildBody pairs).map Prod.fst).Nodup ∧
    (∀ k, lookupKV (buildBody pairs) k = lastValue pairs k) ∧
    (HttpRequest.post client ⟨url, pairs⟩).body = some (buildBody pairs) ∧
    (HttpRequest.put client ⟨url, pairs⟩).body = some (buildBody pairs) ∧
    (HttpRequest.patch client ⟨url, pairs⟩).body = some (buildBody pairs) ∧
    (HttpRequest.get client ⟨url⟩).body = none := by
  refine ⟨foldl_insert_nodup pairs [] (by simp), ?_, rfl, rfl, rfl, rfl⟩
  intro k
  rw [buildBody, foldl_insert_lookup]
  cases lastValue pairs k <;> simp [lookupKV]

/-- A parsed MIME type, modelling the external mime crate's `Mime` with
type, subtype and parameter list; the parser below stores everything
case-normalised to lower case, so structural equality coincides with
the crate's case-insensitive comparison. -/
structure Mime where
  type : String
  subtype : String
  params : List (String × String)
deriving DecidableEq

/-- `mime::APPLICATION_JSON`. -/
def APPLICATION_JSON : Mime := ⟨"application", "json", []⟩

/-- `mime::TEXT_HTML`. -/
def TEXT_HTML : Mime := ⟨"text", "html", []⟩

/-- `mime::TEXT_HTML_UTF_8`. -/
def TEXT_HTML_UTF_8 : Mime := ⟨"text", "html", [("charset", "utf-8")]⟩

/-- `mime::TEXT_CSS`. -/
def TEXT_CSS : Mime := ⟨"text", "css", []⟩

/-- `mime::TEXT_CSS_UTF_8`. -/
def TEXT_CSS_UTF_8 : Mime := ⟨"text", "css", [("charset", "utf-8")]⟩

/-- `mime::APPLICATION_JAVASCRIPT`. -/
def APPLICATION_JAVASCRIPT : Mime := ⟨"application", "javascript", []⟩

/-- Token characters of a MIME type or parameter (RFC 7230 tchar),
modelling the character class accepted by the mime crate. -/
def isTokenChar (c : Char) : Bool :=
  c.isAlphanum || c == '!' || c == '#' || c == '$' || c == '%' || c == '&' ||
  c == '*' || c == '+' || c == '-' || c == '.' || c == '^' || c == '_' ||
  c == '|' || c == '~' || c == Char.ofNat 39 || c == Char.ofNat 96

/-- One `name=value` MIME parameter segment (leading spaces stripped;
quoted-string parameter values are not modelled, as no claim depends on
them). -/
def parseParam (seg : List Char) : Option (String × String) :=
  let seg2 := seg.dropWhile (fun c => c == ' ')
  match splitOnChar '=' seg2 with
  | [name, value] =>
    if (!name.isEmpty) && name.all isTokenChar
        && (!value.isEmpty) && value.all isTokenChar
    then some (String.mk name, String.mk value)
    else none
  | _ => none

/-- Modelled from the external mime crate's documented grammar: a MIME
type is `type "/" subtype` of token characters, optionally followed by
`";"`-separated `name=value` parameters; everything is lower-cased. -/
def mimeParse (s : String) : Option Mime :=
  let cs := s.data.map Char.toLower
  match splitOnChar ';' cs with
  | [] => none
  | main :: params =>
    match splitOnChar '/' main with
    | [ty, sub] =>
      if (!ty.isEmpty) && ty.all isTokenChar
          && (!sub.isEmpty) && sub.all isTokenChar
      then
        match params.mapM parseParam with
        | some ps => some ⟨String.mk ty, String.mk sub, ps⟩
        | none => none
      else none
    | _ => none

/-- A raw header value is a byte sequence, as in the http crate. -/
abbrev HeaderValue := List Nat

/-- Modelled from the http crate: `HeaderValue::to_str` succeeds exactly
when every byte is visible ASCII (32..126) or horizontal tab. -/
def HeaderValue.to_str (v : HeaderValue) : Option String :=
  if v.all (fun b => b == 9 || (Nat.ble 32 b && Nat.ble b 126))
  then some (String.mk (v.map Char.ofNat))
  else none

/-- The received response as the renderer sees it: protocol version
string, status line, header pairs in the order received (names stored
lower-cased, as the http crate does), and the body read as text. -/
structure Response where
  version : String
  status : String
  headers : List (String × HeaderValue)
  body : String
deriving DecidableEq

/-- `HeaderMap::get`: the first value stored under the given name. -/
def headerGet (headers : List (String × HeaderValue)) (name : String) :
    Option HeaderValue :=
  match headers with
  | [] => none
  | (n, v) :: rest => if n == name then some v else headerGet rest name

/-- Result of a computation that may abort the process with a panic. -/
inductive PanicOr (α : Type)
  | panic
  | ok (a : α)
deriving DecidableEq

/-- `parse_mime`: looks up the `content-type` header and, when present,
converts it to a string and parses it as a MIME type, unwrapping both
fallible steps — each failure is a panic, not a recoverable error. -/
def parse_mime (headers : List (String × HeaderValue)) : PanicOr (Option Mime) :=
  match headerGet headers "content-type" with
  | none => PanicOr.ok none
  | some v =>
    match HeaderValue.to_str v with
    | none => PanicOr.panic
    | some str =>
      match mimeParse str with
      | none => PanicOr.panic
      | some m => PanicOr.ok (some m)

/-- The body-rendering strategy `print_body` selects: invoke the syntax
highlighter with a file extension, or print the raw text. -/
inductive BodyRendering
  | highlighted (ext : String)
  | raw
deriving DecidableEq

/-- The strategy selected by the `match` in `print_body`: exact equality
against the mime crate constants, with the raw fallback for every other
or absent content type. -/
def bodyRendering (m : Option Mime) : BodyRendering :=
  match m with
  | some v =>
    if v = APPLICATION_JSON then BodyRendering.highlighted "json"
    else if v = TEXT_HTML ∨ v = TEXT_HTML_UTF_8 then BodyRendering.highlighted "html"
    else if v = TEXT_CSS ∨ v = TEXT_CSS_UTF_8 then BodyRendering.highlighted "css"
    else if v = APPLICATION_JAVASCRIPT then BodyRendering.highlighted "javascript"
    else BodyRendering.raw
  | none => BodyRendering.raw

/-- One element of the rendered standard-output stream.  Colour and
escape-sequence decoration carries no information the claims depend on
and is abstracted away. -/
inductive OutBlock
  | marker (label : String)
  | statusLine (version status : String)
  | header (name value : String)
  | highlightedBody (ext : String) (content : String)
  | bodyText (content : String)
deriving DecidableEq

/-- Modelled from the spec: the syntax set loaded by
`SyntaxSet::load_defaults_newlines` is data bundled with the external
syntect library, outside this repository; the spec says only that an
unknown file-extension mapping is an unguarded fatal error.  The set of
extensions the default syntax set knows is therefore kept as an explicit
parameter, and `find_syntax_by_extension` succeeds exactly on its
members. -/
def find_syntax_by_extension (exts : List String) (ext : String) : Option String :=
  if ext ∈ exts then some ext else none

/-- `print_syntect`: looks the extension up in the default syntax set and
unwraps the result — when the lookup fails the process panics before any
content has been emitted; on success it emits the content highlighted
for that extension. -/
def print_syntect (exts : List String) (content : String) (ext : String) :
    PanicOr (List OutBlock) :=
  match find_syntax_by_extension exts ext with
  | none => PanicOr.panic
  | some _ => PanicOr.ok [OutBlock.highlightedBody ext content]

/-- Debug formatting of a raw header value (`{:?}` on `HeaderValue`):
the bytes rendered as characters between double quotes.  Escaping of
non-printable bytes is abstracted away; no claim depends on it. -/
def hvDebug (v : HeaderValue) : String :=
  "\"" ++ String.mk (v.map Char.ofNat) ++ "\""

/-- `print_status`: the `[status]` marker, then the protocol version and
status line. -/
def print_status (res : Response) : List OutBlock :=
  [OutBlock.marker "[status]", OutBlock.statusLine res.version res.status]

/-- `print_headers`: the `[headers]` marker, then one line per header
pair, in the order received, the value debug-formatted. -/
def print_headers (res : Response) : List OutBlock :=
  OutBlock.marker "[headers]" ::
    res.headers.map (fun p => OutBlock.header p.1 (hvDebug p.2))

/-- `print_body`: the `[body]` marker is printed first, then the body is
rendered by the strategy selected from the content type.  The result is
the list of blocks emitted before a possible abort: when the
highlighter's syntax lookup panics, the marker has already been printed
and nothing follows it. -/
def print_body (exts : List String) (m : Option Mime) (body : String) :
    List OutBlock :=
  OutBlock.marker "[body]" ::
    (match bodyRendering m with
     | BodyRendering.highlighted ext =>
       match print_syntect exts body ext with
       | PanicOr.panic => []
       | PanicOr.ok blocks => blocks
     | BodyRendering.raw => [OutBlock.bodyText body])

/-- `print_response`: status, headers, then the mime lookup and the body;
the result is the list of blocks emitted before a possible abort.  When
`parse_mime` panics the process aborts after the headers have been
printed, so nothing further is emitted. -/
def print_response (exts : List String) (res : Response) : List OutBlock :=
  print_status res ++ print_headers res ++
    (match parse_mime res.headers with
     | PanicOr.panic => []
     | PanicOr.ok m => print_body exts m res.body)

/-- C5: the rendering strategy is selected by exact match on the resolved
content type — `application/json` highlights as json, `text/html` plain
or with the utf-8 charset as html, `text/css` variants as css,
`application/javascript` as javascript — and every other content type,
as well as an absent one, prints the raw body text without invoking any
highlighter. -/
theorem body_dispatch (exts : List String) (body : String) :
    bodyRendering (some APPLICATION_JSON) = BodyRendering.highlighted "json" ∧
    bodyRendering (some TEXT_HTML) = BodyRendering.highlighted "html" ∧
    bodyRendering (some TEXT_HTML_UTF_8) = BodyRendering.highlighted "html" ∧
    bodyRendering (some TEXT_CSS) = BodyRendering.highlighted "css" ∧
    bodyRendering (some TEXT_CSS_UTF_8) = BodyRendering.highlighted "css" ∧
    bodyRendering (some APPLICATION_JAVASCRIPT) =
      BodyRendering.highlighted "javascript" ∧
    (∀ m : Mime, m ≠ APPLICATION_JSON → m ≠ TEXT_HTML → m ≠ TEXT_HTML_UTF_8 →
      m ≠ TEXT_CSS → m ≠ TEXT_CSS_UTF_8 → m ≠ APPLICATION_JAVASCRIPT →
      print_body exts (some m) body =
        [OutBlock.marker "[body]", OutBlock.bodyText body]) ∧
    print_body exts none body =
      [OutBlock.marker "[body]", OutBlock.bodyText body] := by
  refine ⟨by decide, by decide, by decide, by decide, by decide, by decide, ?_, rfl⟩
  intro m h1 h2 h3 h4 h5 h6
  unfold print_body bodyRendering
  simp only [if_neg h1, if_neg (not_or.mpr ⟨h2, h3⟩), if_neg (not_or.mpr ⟨h4, h5⟩),
    if_neg h6]

theorem body_dispatch_w :
    print_body [] (some ⟨"image", "png", []⟩) "x" =
      [OutBlock.marker "[body]", OutBlock.bodyText "x"] :=
  (body_dispatch [] "x").2.2.2.2.2.2.1 ⟨"image", "png", []⟩ (by decide) (by decide)
    (by decide) (by decide) (by decide) (by decide)

/-- The bytes of an ASCII string, for building concrete header values. -/
def strBytes (s : String) : List Nat := s.data.map Char.toNat

/-- A response whose `Content-Type` header is visible ASCII but not a
parseable MIME type. -/
def respBadMime : Response :=
  ⟨"HTTP/1.1", "200 OK", [("content-type", strBytes "nonsense")], "hello"⟩

/-- The most favourable extension table: every extension `print_body`
ever selects is present, so the counterexample below fails independently
of what syntect's bundled syntax set actually contains. -/
def allExts : List String := ["json", "html", "css", "javascript"]

/-- C6 counterexample: on a response whose `Content-Type` value does not
parse as a MIME type, the renderer emits the status block and the
headers block and then aborts: no body block is ever emitted, refuting
the claim for every received response.  The extension table is the most
favourable one, so the failure is forced by `parse_mime` alone. -/
theorem print_response_missing_body_cex :
    print_response allExts respBadMime =
      [OutBlock.marker "[status]", OutBlock.statusLine "HTTP/1.1" "200 OK",
       OutBlock.marker "[headers]",
       OutBlock.header "content-type" (hvDebug (strBytes "nonsense"))] ∧
    ¬ (OutBlock.marker "[body]" ∈ print_response allExts respBadMime) := by
  refine ⟨by decide, by decide⟩

/-- C6 amended: for every response whose `Content-Type` header is absent
or resolves to a MIME type (i.e. `parse_mime` does not panic), the
renderer emits, in this order, the status block with the protocol
version and status line, the headers block with one debug-formatted
line per header pair in the order received, and the opening `[body]`
marker of the body block; the body block then completes with the raw
body text when the raw strategy was selected, and, when a highlighter
was selected, completes with the highlighted body exactly when the
chosen extension is known to the highlighter's syntax set — otherwise
the unwrapped syntax lookup aborts the process and nothing follows the
marker. -/
theorem print_response_blocks (exts : List String) (res : Response)
    (m : Option Mime) (h : parse_mime res.headers = PanicOr.ok m) :
    print_response exts res =
      [OutBlock.marker "[status]", OutBlock.statusLine res.version res.status] ++
      (OutBlock.marker "[headers]" ::
        res.headers.map (fun p => OutBlock.header p.1 (hvDebug p.2))) ++
      (OutBlock.marker "[body]" ::
        (match bodyRendering m with
         | BodyRendering.highlighted ext =>
           if ext ∈ exts then [OutBlock.highlightedBody ext res.body] else []
         | BodyRendering.raw => [OutBlock.bodyText res.body])) := by
  unfold print_response print_status print_headers print_body print_syntect
    find_syntax_by_extension
  rw [h]
  cases hb : bodyRendering m with
  | highlighted ext =>
    simp only [hb]
    by_cases he : ext ∈ exts
    · simp [he]
    · simp [he]
  | raw => simp [hb]

/-- A response with no `Content-Type` header at all. -/
def respNoCT : Response := ⟨"HTTP/1.1", "200 OK", [], "hi"⟩

theorem print_response_blocks_w :
    print_response [] respNoCT =
      [OutBlock.marker "[status]", OutBlock.statusLine "HTTP/1.1" "200 OK"] ++
      [OutBlock.marker "[headers]"] ++
      [OutBlock.marker "[body]", OutBlock.bodyText "hi"] :=
  (print_response_blocks [] respNoCT none (by decide)).trans (by decide)

/-- The four CLI subcommands (`enum SubCommand`). -/
inductive SubCommand
  | get (args : GET)
  | post (args : POST)
  | put (args : PUT)
  | patch (args : PATCH)
deriving DecidableEq

/-- The parsed command line (`struct Opts`): the subcommand and the
accumulated count of the repeatable `-v`/`--verbose` flag. -/
structure Opts where
  subcmd : SubCommand
  verbose : Int
deriving DecidableEq

/-- The default headers `main` installs on the client: the fixed
`X-POWERED-BY` marker and the fixed user-agent string. -/
def defaultHeaders : List (String × String) :=
  [("X-POWERED-BY", "Rust"), ("user-agent", "Rust HTTPIE")]

/-- The request `main` issues: an exhaustive match on the subcommand,
dispatching to the corresponding `HttpRequest` method with the client
carrying the default headers. -/
def mainRequest (opts : Opts) : Request :=
  match opts.subcmd with
  | SubCommand.get args => HttpRequest.get defaultHeaders args
  | SubCommand.post args => HttpRequest.post defaultHeaders args
  | SubCommand.put args => HttpRequest.put defaultHeaders args
  | SubCommand.patch args => HttpRequest.patch defaultHeaders args

/-- The output `main` renders for the received response: every
subcommand branch ends in `print_response(res)`, which receives only
the response. -/
def mainRender (exts : List String) (opts : Opts) (res : Response) :
    List OutBlock :=
  match opts.subcmd with
  | SubCommand.get _ => print_response exts res
  | SubCommand.post _ => print_response exts res
  | SubCommand.put _ => print_response exts res
  | SubCommand.patch _ => print_response exts res

/-- C8: two runs that differ only in the accumulated count of the
`-v`/`--verbose` flag issue the identical HTTP request and render the
identical output: the verbose count is parsed but never read by the
dispatch or rendering logic. -/
theorem verbose_noninterference (exts : List String) (sub : SubCommand)
    (v1 v2 : Int) (res : Response) :
    mainRequest ⟨sub, v1⟩ = mainRequest ⟨sub, v2⟩ ∧
    mainRender exts ⟨sub, v1⟩ res = mainRender exts ⟨sub, v2⟩ res :=
  ⟨rfl, rfl⟩

/-- C10: `parse_mime` returns `none` when the response has no
`content-type` header; returns the parsed MIME type when the header
value is visible ASCII and parses; and panics — instead of surfacing a
recoverable render error — when the value is not visible ASCII or does
not parse as a MIME type. -/
theorem parse_mime_spec (headers : List (String × HeaderValue)) :
    (headerGet headers "content-type" = none → parse_mime headers = PanicOr.ok none) ∧
    (∀ v s m, headerGet headers "content-type" = some v →
      HeaderValue.to_str v = some s → mimeParse s = some m →
      parse_mime headers = PanicOr.ok (some m)) ∧
    (∀ v, headerGet headers "content-type" = some v →
      HeaderValue.to_str v = none → parse_mime headers = PanicOr.panic) ∧
    (∀ v s, headerGet headers "content-type" = some v →
      HeaderValue.to_str v = some s → mimeParse s = none →
      parse_mime headers = PanicOr.panic) := by
  refine ⟨?_, ?_, ?_, ?_⟩
  · intro h
    unfold parse_mime
    rw [h]
  · intro v s m h1 h2 h3
    unfold parse_mime
    rw [h1]
    simp only [h2, h3]
  · intro v h1 h2
    unfold parse_mime
    rw [h1]
    simp only [h2]
  · intro v s h1 h2 h3
    unfold parse_mime
    rw [h1]
    simp only [h2, h3]

theorem parse_mime_spec_w :
    parse_mime [("content-type", strBytes "application/json")] =
      PanicOr.ok (some APPLICATION_JSON) :=
  (parse_mime_spec [("content-type", strBytes "application/json")]).2.1
    (strBytes "application/json") "application/json" APPLICATION_JSON
    (by decide) (by decide) (by decide)
